import Mathlib

/-!
Verification of src/utils/binance_data.py

Shallow embedding of the Binance historical-data acquisition and assembly
pipeline (`get_existing_dates`, `download_and_save_csv`,
`download_binance_data`, `get_combined_dataframe`).

Modelling conventions:

* A calendar date is a `Nat` (days since an epoch); the `datetime.date`
  values of the source are totally ordered and advanced by
  `timedelta(days=1)`, which is `Nat` successor here.  The string round trip
  through `strftime("%Y-%m-%d")` / `strptime` is a bijection on valid dates
  and is elided.
* The cache directory is a finite association list `Dir` from the date
  encoded in the name of a file to the content of that file.  For a fixed
  dataset key (symbol / interval / data type) the filename
  `{symbol}-{interval}-{YYYY-MM-DD}.csv` is determined by the date alone and
  the anchored regex in `get_existing_dates` recovers exactly that date, so
  keying by date is faithful; files whose names do not match the pattern are
  only ever printed and never read, hence omitted from the model.
* File content is `Content`: either `table rows` (a CSV that
  `pandas.read_csv` parses to the given rows) or `malformed` (a zero-byte or
  otherwise unparseable file, on which `read_csv` raises).
* The remote store is a function `Nat → Nat → RemoteResult` giving the
  response to the n-th attempt for a date: HTTP 200 with a good archive,
  a non-200 status, a network error, or a 200 whose ZIP payload is corrupt.
* Each row carries `open_time`, the first CSV column (epoch milliseconds).
-/

/-- One CSV row; `open_time` is the leading timestamp column (epoch ms),
`payload` stands for the remaining OHLCV columns. -/
structure Row where
  open_time : Nat
  payload : Nat
deriving DecidableEq, Repr

/-- Content of a cached artifact file: a parseable CSV table, or a zero-byte
or truncated file on which `pandas.read_csv` raises. -/
inductive Content where
  | malformed : Content
  | table : List Row → Content
deriving DecidableEq, Repr

/-- The cache directory for one dataset key: files keyed by the date encoded
in their (deterministic) name. -/
abbrev Dir := List (Nat × Content)

/-- File lookup (`Path.exists` plus read) at the deterministic path for a date:
the first directory entry for that date, if any. -/
def fileAt : Dir → Nat → Option Content
  | [], _ => none
  | (d, c) :: rest, k => if k = d then some c else fileAt rest k

/-- Embedding of `get_existing_dates` (binance_data.py lines 12-53): raises
`ValueError` when asked for klines without an interval, otherwise returns the
dates of all files in the directory whose name matches the pattern of the
key.
Only the file NAME is inspected — content is never opened. -/
def get_existing_dates (data_type : String) (interval : Option String)
    (dir : Dir) : Except String (List Nat) :=
  if data_type = "klines" ∧ interval = none then
    .error "interval is required for klines data_type"
  else
    .ok (dir.map Prod.fst)

/-- The inclusive date range `[s, e]`, ascending; empty when `e < s`.
Embeds the `while date <= end: ... date += timedelta(days=1)` loops. -/
def dateRange (s e : Nat) : List Nat :=
  List.range' s (e + 1 - s)

/-- Step 1 of `download_binance_data` (lines 134-140): the dates of the range
not present in `existing`, in loop (ascending) order. -/
def missing_dates (existing : List Nat) (s e : Nat) : List Nat :=
  (dateRange s e).filter (fun d => d ∉ existing)

/-- Outcome of one HTTP GET attempt in `download_and_save_csv`, classified by
where in the attempt body it fails.  The first three failure kinds occur
BEFORE `open(out_path, "wb")` is reached (the non-200 branch; an exception
during the request or the body read; `zipfile.ZipFile` or `namelist()[0]`
raising on a corrupt archive), so they leave the destination untouched.
`corruptMember` is an HTTP 200 whose ZIP opens but whose single member
raises (CRC / decompression error) during `csv_file.read()` — by then
`open(out_path, "wb")` has already truncated/created the destination, so the
failed attempt leaves a zero-byte file there. -/
inductive RemoteResult where
  | ok : List Row → RemoteResult
  | httpError : Nat → RemoteResult
  | netError : RemoteResult
  | badArchive : RemoteResult
  | corruptMember : RemoteResult
deriving DecidableEq, Repr

/-- An attempt outcome is transient (printed, slept on, retried) unless it is
an HTTP 200 whose archive extracts cleanly. -/
def isTransient : RemoteResult → Bool
  | .ok _ => false
  | _ => true

/-- Attempt outcomes that fail before `open(out_path, "wb")` executes: these
leave the destination path untouched.  Every transient outcome except
`corruptMember` is of this kind. -/
def failsBeforeWrite : RemoteResult → Bool
  | .httpError _ => true
  | .netError => true
  | .badArchive => true
  | _ => false

/-- Result of one `download_and_save_csv` call: whether it returned `True`,
the content the loop left at a previously-absent `out_path` (the full table
on success; a zero-byte `malformed` file when retries were exhausted after
at least one attempt truncated the destination; `none` when the destination
was never touched), the number of HTTP requests issued, and the number of
`asyncio.sleep(1)` one-second pauses executed. -/
structure FetchOutcome where
  success : Bool
  written : Option Content
  attempts : Nat
  sleeps : Nat
deriving DecidableEq, Repr

/-- The `for attempt in range(1, retries + 1)` loop of `download_and_save_csv`
(lines 58-75).  `made` counts attempts already made (the `attempt` variable
of the source is `made + 1`); `touched` records whether some earlier attempt
already truncated the destination via `open(out_path, "wb")`; `remaining`
counts attempts still allowed.  A 200 response with a good archive writes
the payload and returns `True`; a 200 response whose member read raises
truncates the destination to zero bytes, is printed, slept on and retried;
any other failure leaves the destination as it was, is printed, slept on and
retried; exhausting the budget returns `False` (no exception escapes — the
`except` clause catches all), leaving a zero-byte file at the destination
exactly when some attempt had truncated it. -/
def attempt_loop (resp : Nat → RemoteResult) (made : Nat) (touched : Bool) :
    Nat → FetchOutcome
  | 0 =>
    { success := false,
      written := if touched then some Content.malformed else none,
      attempts := made, sleeps := made }
  | remaining + 1 =>
    match resp (made + 1) with
    | .ok rows =>
      { success := true, written := some (Content.table rows),
        attempts := made + 1, sleeps := made }
    | .corruptMember => attempt_loop resp (made + 1) true remaining
    | _ => attempt_loop resp (made + 1) touched remaining

/-- Embedding of `download_and_save_csv` (lines 56-76) for one date with a
previously-absent destination, given the per-attempt remote responses. -/
def download_and_save_csv (resp : Nat → RemoteResult)
    (retries : Nat := 3) : FetchOutcome :=
  attempt_loop resp 0 false retries

/-- The task list built at lines 148-163 and collected by `asyncio.gather`:
one outcome per scheduled date. -/
def run_downloads (remote : Nat → Nat → RemoteResult) (dates : List Nat)
    (retries : Nat := 3) : List (Nat × FetchOutcome) :=
  dates.map (fun d => (d, download_and_save_csv (remote d) retries))

/-- Apply the file effects of a batch of fetch outcomes to the directory:
each fetch that touched its (previously absent) destination leaves the
resulting content — the full table on success, a zero-byte leftover on an
exhausted run whose last truncation was never overwritten — at the
deterministic path of its date. -/
def apply_outcomes (dir : Dir) (results : List (Nat × FetchOutcome)) : Dir :=
  results.foldl
    (fun acc r =>
      match r.2.written with
      | some c => acc ++ [(r.1, c)]
      | none => acc)
    dir

/-- Total HTTP requests issued by a batch of fetches (each attempt is one
`session.get`). -/
def total_requests (results : List (Nat × FetchOutcome)) : Nat :=
  results.foldl (fun acc r => acc + r.2.attempts) 0

/-- Embedding of `download_binance_data` (lines 79-166): validates
`data_type` and `interval` (lines 95-98) before touching the cache or the
network, scans the cache, computes the missing dates, returns immediately
with zero requests when none are missing (lines 142-143), otherwise fetches
every missing date whose destination does not already exist (the re-check of
line 159), applying all successful writes.  The result is the new directory
state and the number of HTTP requests issued.  `download_and_save_csv` is
invoked without a `retries` argument (line 162), so the default 3 applies. -/
def download_binance_data (data_type : String) (interval : Option String)
    (dir : Dir) (remote : Nat → Nat → RemoteResult)
    (start_date end_date : Nat) : Except String (Dir × Nat) :=
  if data_type ≠ "klines" ∧ data_type ≠ "bookTicker" then
    .error "data_type must be klines or bookTicker"
  else if data_type = "klines" ∧ interval = none then
    .error "interval is required for klines data_type"
  else
    match get_existing_dates data_type interval dir with
    | .error m => .error m
    | .ok existing =>
      let missing := missing_dates existing start_date end_date
      if missing = [] then
        .ok (dir, 0)
      else
        let toFetch := missing.filter (fun d => fileAt dir d = none)
        let results := run_downloads remote toFetch
        .ok (apply_outcomes dir results, total_requests results)

/-- Embedding of `pandas.read_csv` on a cached artifact: parses a well-formed table,
raises (e.g. `EmptyDataError`) on a zero-byte or truncated file. -/
def read_csv : Content → Except String (List Row)
  | Content.malformed => .error "No columns to parse from file"
  | Content.table rows => .ok rows

/-- A file content is well-formed iff `read_csv` succeeds on it. -/
def Content.wellFormed (c : Content) : Bool :=
  match read_csv c with
  | .ok _ => true
  | .error _ => false

/-- The rows the assembler would take from a date: `some rows` when a
parseable file is present at the path of the date, `none` otherwise. -/
def presentRows (dir : Dir) (d : Nat) : Option (List Row) :=
  match fileAt dir d with
  | some (Content.table rows) => some rows
  | _ => none

/-- The per-day read loop of `get_combined_dataframe` (lines 208-218): for
each date in order, if the file exists it is parsed (a parse error
propagates), otherwise a warning is printed and the date is skipped. -/
def collect_dfs (dir : Dir) : List Nat → Except String (List (List Row))
  | [] => .ok []
  | d :: ds =>
    match fileAt dir d with
    | some c =>
      match read_csv c with
      | .error m => .error m
      | .ok df =>
        match collect_dfs dir ds with
        | .error m => .error m
        | .ok rest => .ok (df :: rest)
    | none => collect_dfs dir ds

/-- Embedding of `get_combined_dataframe` (lines 169-223): first runs the
download step, then concatenates the per-day CSVs of the requested range in
ascending date order (`pd.concat`, preserving row order), raising
`ValueError` when no day produced any frame.  The second component is the
number of HTTP requests the run issued. -/
def get_combined_dataframe (dir : Dir)
    (remote : Nat → Nat → RemoteResult) (start_date end_date : Nat)
    (data_type : String := "klines") (interval : String := "1h") :
    Except String (List Row) × Nat :=
  match download_binance_data data_type (some interval) dir remote
      start_date end_date with
  | .error m => (.error m, 0)
  | .ok (dir2, reqs) =>
    match collect_dfs dir2 (dateRange start_date end_date) with
    | .error m => (.error m, reqs)
    | .ok dfs =>
      if dfs = [] then (.error "No data found, exiting.", reqs)
      else (.ok dfs.flatten, reqs)

/-- The states the destination path passes through during the write step of
`download_and_save_csv` (lines 66-67): `open(out_path, "wb")` creates or
truncates the file AT THE DESTINATION itself (there is no temporary path and
no rename), then the decompressed payload is written; so the destination
successively holds every prefix of the payload. -/
def destStatesDuringWrite (payload : List Nat) : List (Option (List Nat)) :=
  (List.range (payload.length + 1)).map (fun k => some (payload.take k))

/-- Milliseconds in one UTC day — the span of `open_time` values a daily
Binance archive may contain. -/
def dayMillis : Nat := 86400000

/-- The timestamp of a row lies inside its source calendar day. -/
def inDay (d : Nat) (r : Row) : Prop :=
  d * dayMillis ≤ r.open_time ∧ r.open_time < (d + 1) * dayMillis

instance (d : Nat) (r : Row) : Decidable (inDay d r) := by
  unfold inDay
  infer_instance

/-- Phase of one scheduled fetch task: not yet holding the semaphore, inside
`async with semaphore` (downloading / writing), or finished. -/
inductive TaskPhase where
  | waiting : TaskPhase
  | inFlight : TaskPhase
  | done : TaskPhase
deriving DecidableEq, Repr

/-- State of one acquisition run: the phase of each scheduled task. -/
abbrev SchedState := List TaskPhase

/-- Number of tasks currently inside the semaphore (in flight). -/
def inFlightCount (s : SchedState) : Nat :=
  s.countP (fun p => p == TaskPhase.inFlight)

/-- Interleaving semantics of `asyncio.Semaphore(max_concurrent_downloads)`
with the `async with semaphore` block of `download_and_save_csv`: a waiting
task may enter only while fewer than `N` tasks hold the semaphore; an
in-flight task may finish at any time, releasing its slot. -/
inductive SchedStep (N : Nat) : SchedState → SchedState → Prop
  | acquire (pre post : List TaskPhase)
      (h : inFlightCount (pre ++ TaskPhase.waiting :: post) < N) :
      SchedStep N (pre ++ TaskPhase.waiting :: post)
        (pre ++ TaskPhase.inFlight :: post)
  | release (pre post : List TaskPhase) :
      SchedStep N (pre ++ TaskPhase.inFlight :: post)
        (pre ++ TaskPhase.done :: post)

/-- States reachable by a run of `n` fetch tasks under concurrency limit
`N`, starting with every task waiting (the task list of lines 148-163). -/
def SchedReachable (N n : Nat) (s : SchedState) : Prop :=
  Relation.ReflTransGen (SchedStep N) (List.replicate n TaskPhase.waiting) s

/-! ## Basic lemmas about ranges, lookup and the missing-day computation -/

theorem length_dateRange (s e : Nat) : (dateRange s e).length = e + 1 - s := by
  simp [dateRange]

theorem mem_dateRange {s e d : Nat} : d ∈ dateRange s e ↔ s ≤ d ∧ d ≤ e := by
  rw [dateRange, List.mem_range'_1]
  omega

theorem dateRange_eq_nil {s e : Nat} (h : e < s) : dateRange s e = [] := by
  have h0 : e + 1 - s = 0 := by omega
  simp [dateRange, h0]

theorem dateRange_ne_nil {s e : Nat} (h : s ≤ e) : dateRange s e ≠ [] := by
  intro hnil
  have hlen := length_dateRange s e
  rw [hnil] at hlen
  simp only [List.length_nil] at hlen
  omega

theorem dateRange_pairwise (s e : Nat) : (dateRange s e).Pairwise (· < ·) :=
  List.pairwise_lt_range' _ _

theorem dateRange_get (s e : Nat) (i : Nat) (h : i < (dateRange s e).length) :
    (dateRange s e).get ⟨i, h⟩ = s + i := by
  rw [List.get_eq_getElem]
  exact List.getElem_range'_1 i h

theorem fileAt_isSome_iff {dir : Dir} {d : Nat} :
    (fileAt dir d).isSome ↔ d ∈ dir.map Prod.fst := by
  induction dir with
  | nil => simp [fileAt]
  | cons a rest ih =>
    obtain ⟨a1, a2⟩ := a
    simp only [fileAt, List.map_cons, List.mem_cons]
    by_cases h : d = a1
    · simp [h]
    · simp [h, ih]

theorem fileAt_eq_none_iff {dir : Dir} {d : Nat} :
    fileAt dir d = none ↔ d ∉ dir.map Prod.fst := by
  rw [← fileAt_isSome_iff]
  cases fileAt dir d <;> simp

theorem mem_missing_dates {existing : List Nat} {s e d : Nat} :
    d ∈ missing_dates existing s e ↔ s ≤ d ∧ d ≤ e ∧ d ∉ existing := by
  simp only [missing_dates, List.mem_filter, mem_dateRange, decide_eq_true_eq]
  tauto

theorem missing_dates_eq_nil_of {existing : List Nat} {s e : Nat}
    (h : ∀ d, s ≤ d → d ≤ e → d ∈ existing) :
    missing_dates existing s e = [] := by
  rw [List.eq_nil_iff_forall_not_mem]
  intro d hd
  rw [mem_missing_dates] at hd
  exact hd.2.2 (h d hd.1 hd.2.1)

theorem missing_dates_nil_existing (s e : Nat) :
    missing_dates [] s e = dateRange s e := by
  simp [missing_dates]

/-! ## Lemmas about the retry loop and the scheduler -/

theorem attempt_loop_exhaust (resp : Nat → RemoteResult)
    (h : ∀ n, isTransient (resp n) = true) (remaining : Nat) :
    ∀ made touched, attempt_loop resp made touched remaining =
      { success := false,
        written :=
          if touched || (List.range' (made + 1) remaining).any
              (fun n => resp n == RemoteResult.corruptMember)
          then some Content.malformed else none,
        attempts := made + remaining, sleeps := made + remaining } := by
  induction remaining with
  | zero =>
    intro made touched
    simp [attempt_loop]
  | succ r ih =>
    intro made touched
    unfold attempt_loop
    cases hr : resp (made + 1) with
    | ok rows =>
      have hcontra := h (made + 1)
      rw [hr] at hcontra
      simp [isTransient] at hcontra
    | httpError code =>
      rw [ih (made + 1) touched]
      have harith : made + 1 + r = made + (r + 1) := by omega
      rw [harith, List.range'_succ, List.any_cons]
      have hb : (resp (made + 1) == RemoteResult.corruptMember) = false := by
        rw [hr]
        rfl
      rw [hb, Bool.false_or]
    | netError =>
      rw [ih (made + 1) touched]
      have harith : made + 1 + r = made + (r + 1) := by omega
      rw [harith, List.range'_succ, List.any_cons]
      have hb : (resp (made + 1) == RemoteResult.corruptMember) = false := by
        rw [hr]
        rfl
      rw [hb, Bool.false_or]
    | badArchive =>
      rw [ih (made + 1) touched]
      have harith : made + 1 + r = made + (r + 1) := by omega
      rw [harith, List.range'_succ, List.any_cons]
      have hb : (resp (made + 1) == RemoteResult.corruptMember) = false := by
        rw [hr]
        rfl
      rw [hb, Bool.false_or]
    | corruptMember =>
      rw [ih (made + 1) true]
      have harith : made + 1 + r = made + (r + 1) := by omega
      rw [harith, List.range'_succ, List.any_cons]
      have hb : (resp (made + 1) == RemoteResult.corruptMember) = true := by
        rw [hr]
        rfl
      rw [hb, Bool.true_or, Bool.or_true]

theorem attempt_loop_attempts_le (resp : Nat → RemoteResult) (remaining : Nat) :
    ∀ made touched,
      (attempt_loop resp made touched remaining).attempts ≤ made + remaining := by
  induction remaining with
  | zero => intro made touched; simp [attempt_loop]
  | succ r ih =>
    intro made touched
    unfold attempt_loop
    cases resp (made + 1) with
    | ok rows =>
      show made + 1 ≤ made + (r + 1)
      omega
    | httpError code =>
      show (attempt_loop resp (made + 1) touched r).attempts ≤ made + (r + 1)
      have := ih (made + 1) touched
      omega
    | netError =>
      show (attempt_loop resp (made + 1) touched r).attempts ≤ made + (r + 1)
      have := ih (made + 1) touched
      omega
    | badArchive =>
      show (attempt_loop resp (made + 1) touched r).attempts ≤ made + (r + 1)
      have := ih (made + 1) touched
      omega
    | corruptMember =>
      show (attempt_loop resp (made + 1) true r).attempts ≤ made + (r + 1)
      have := ih (made + 1) true
      omega

theorem download_exhausts_of_transient (resp : Nat → RemoteResult)
    (retries : Nat) (h : ∀ n, isTransient (resp n) = true) :
    download_and_save_csv resp retries =
      { success := false,
        written :=
          if (List.range' 1 retries).any
              (fun n => resp n == RemoteResult.corruptMember)
          then some Content.malformed else none,
        attempts := retries, sleeps := retries } := by
  unfold download_and_save_csv
  rw [attempt_loop_exhaust resp h retries 0 false]
  simp only [Nat.zero_add, Bool.false_or]

theorem download_exhausts_untouched (resp : Nat → RemoteResult)
    (retries : Nat) (h : ∀ n, failsBeforeWrite (resp n) = true) :
    download_and_save_csv resp retries =
      { success := false, written := none, attempts := retries,
        sleeps := retries } := by
  have ht : ∀ n, isTransient (resp n) = true := by
    intro n
    have hn := h n
    cases hr : resp n with
    | ok rows => rw [hr] at hn; simp [failsBeforeWrite] at hn
    | httpError code => rfl
    | netError => rfl
    | badArchive => rfl
    | corruptMember => rfl
  have hany : (List.range' 1 retries).any
      (fun n => resp n == RemoteResult.corruptMember) = false := by
    rw [List.any_eq_false]
    intro x _
    have hn := h x
    cases hr : resp x with
    | ok rows => rw [hr] at hn; simp [failsBeforeWrite] at hn
    | corruptMember => rw [hr] at hn; simp [failsBeforeWrite] at hn
    | httpError code => simp
    | netError => simp
    | badArchive => simp
  rw [download_exhausts_of_transient resp retries ht, hany]
  simp

theorem download_first_ok (resp : Nat → RemoteResult) (rows : List Row)
    (retries : Nat) (hr : 0 < retries) (h : resp 1 = .ok rows) :
    download_and_save_csv resp retries =
      { success := true, written := some (Content.table rows), attempts := 1,
        sleeps := 0 } := by
  cases retries with
  | zero => omega
  | succ r =>
    unfold download_and_save_csv attempt_loop
    simp only [Nat.zero_add, h]

/-! ## Lemmas about directory updates and assembly -/

theorem apply_outcomes_cons (dir : Dir) (r : Nat × FetchOutcome)
    (rs : List (Nat × FetchOutcome)) :
    apply_outcomes dir (r :: rs) =
      apply_outcomes
        (match r.2.written with
         | some c => dir ++ [(r.1, c)]
         | none => dir) rs := rfl

theorem apply_outcomes_none (results : List (Nat × FetchOutcome))
    (h : ∀ r ∈ results, r.2.written = none) :
    ∀ dir : Dir, apply_outcomes dir results = dir := by
  induction results with
  | nil => intro dir; rfl
  | cons r rs ih =>
    intro dir
    rw [apply_outcomes_cons, h r (List.mem_cons_self r rs)]
    exact ih (fun x hx => h x (List.mem_cons_of_mem r hx)) dir

theorem apply_outcomes_written (g : Nat → Content)
    (results : List (Nat × FetchOutcome))
    (hw : ∀ r ∈ results, r.2.written = some (g r.1)) :
    ∀ dir : Dir,
      apply_outcomes dir results =
        dir ++ results.map (fun r => (r.1, g r.1)) := by
  induction results with
  | nil => intro dir; simp [apply_outcomes]
  | cons r rs ih =>
    intro dir
    rw [apply_outcomes_cons]
    simp only [hw r (List.mem_cons_self r rs)]
    rw [ih (fun x hx => hw x (List.mem_cons_of_mem r hx)) (dir ++ [(r.1, g r.1)])]
    simp

theorem fileAt_append (l1 l2 : Dir) (d : Nat) :
    fileAt (l1 ++ l2) d = (fileAt l1 d).or (fileAt l2 d) := by
  induction l1 with
  | nil => simp [fileAt]
  | cons a rest ih =>
    obtain ⟨a1, a2⟩ := a
    simp only [List.cons_append, fileAt]
    by_cases hd : d = a1
    · simp [hd]
    · simp [hd, ih]

theorem fileAt_map_of_mem (g : Nat → Content) (l : List Nat) :
    ∀ d ∈ l, fileAt (l.map (fun x => (x, g x))) d = some (g d) := by
  induction l with
  | nil => intro d h; cases h
  | cons a as ih =>
    intro d h
    simp only [List.map_cons, fileAt]
    by_cases hd : d = a
    · subst hd; simp
    · rw [if_neg hd]
      rcases List.mem_cons.mp h with h1 | h2
      · exact absurd h1 hd
      · exact ih d h2

theorem collect_dfs_all_present (dir : Dir) (rows : Nat → List Row) :
    ∀ l : List Nat,
      (∀ d ∈ l, fileAt dir d = some (Content.table (rows d))) →
      collect_dfs dir l = .ok (l.map rows) := by
  intro l
  induction l with
  | nil => intro _; rfl
  | cons d ds ih =>
    intro h
    have hd := h d (List.mem_cons_self d ds)
    have ht := ih (fun x hx => h x (List.mem_cons_of_mem d hx))
    simp only [collect_dfs, hd, read_csv, ht, List.map_cons]

theorem collect_dfs_no_malformed (dir : Dir) :
    ∀ l : List Nat,
      (∀ d ∈ l, fileAt dir d ≠ some Content.malformed) →
      collect_dfs dir l = .ok (l.filterMap (presentRows dir)) := by
  intro l
  induction l with
  | nil => intro _; rfl
  | cons d ds ih =>
    intro h
    have hd := h d (List.mem_cons_self d ds)
    have ht := ih (fun x hx => h x (List.mem_cons_of_mem d hx))
    cases hc : fileAt dir d with
    | none =>
      simp only [collect_dfs, hc, ht, List.filterMap_cons, presentRows]
    | some c =>
      cases c with
      | malformed => exact absurd hc hd
      | table rows =>
        simp only [collect_dfs, hc, read_csv, ht, List.filterMap_cons,
          presentRows]

/-! ## Lemmas about the acquisition entry point -/

theorem collect_dfs_error_of_malformed (dir : Dir) :
    ∀ l : List Nat, (∃ d ∈ l, fileAt dir d = some Content.malformed) →
      collect_dfs dir l = .error "No columns to parse from file" := by
  intro l
  induction l with
  | nil =>
    rintro ⟨d, hd, _⟩
    cases hd
  | cons a as ih =>
    rintro ⟨d, hd, hmal⟩
    rcases List.mem_cons.mp hd with rfl | h2
    · simp only [collect_dfs, hmal, read_csv]
    · cases hc : fileAt dir a with
      | none =>
        simp only [collect_dfs, hc]
        exact ih ⟨d, h2, hmal⟩
      | some c =>
        cases c with
        | malformed => simp only [collect_dfs, hc, read_csv]
        | table rows =>
          simp only [collect_dfs, hc, read_csv]
          rw [ih ⟨d, h2, hmal⟩]

theorem download_noop_of_present (iv : String) (dir : Dir)
    (remote : Nat → Nat → RemoteResult) (s e : Nat)
    (hall : ∀ d, s ≤ d → d ≤ e → (fileAt dir d).isSome) :
    download_binance_data "klines" (some iv) dir remote s e = .ok (dir, 0) := by
  have hm : missing_dates (dir.map Prod.fst) s e = [] :=
    missing_dates_eq_nil_of
      (fun d h1 h2 => fileAt_isSome_iff.mp (hall d h1 h2))
  simp [download_binance_data, get_existing_dates, hm]

theorem download_transient_keeps_dir (iv : String) (dir : Dir)
    (remote : Nat → Nat → RemoteResult) (s e : Nat)
    (hfail : ∀ d n, failsBeforeWrite (remote d n) = true) :
    ∃ k, download_binance_data "klines" (some iv) dir remote s e =
      .ok (dir, k) := by
  by_cases hm : missing_dates (dir.map Prod.fst) s e = []
  · exact ⟨0, by simp [download_binance_data, get_existing_dates, hm]⟩
  · have hres :
        apply_outcomes dir
          (run_downloads remote
            ((missing_dates (dir.map Prod.fst) s e).filter
              (fun d => fileAt dir d = none))) = dir := by
      apply apply_outcomes_none
      intro r hr
      obtain ⟨d, _, rfl⟩ := List.mem_map.mp hr
      rw [download_exhausts_untouched (remote d) 3 (fun n => hfail d n)]
    refine ⟨total_requests
      (run_downloads remote
        ((missing_dates (dir.map Prod.fst) s e).filter
          (fun d => fileAt dir d = none))), ?_⟩
    simp only [download_binance_data, get_existing_dates]
    rw [if_neg (by simp), if_neg (by simp), if_neg (by simp)]
    simp only [if_neg hm, hres]

theorem download_fresh_all_ok (iv : String) (content : Nat → List Row)
    (remote : Nat → Nat → RemoteResult) (s e : Nat) (hse : s ≤ e)
    (hremote : ∀ d n, remote d n = .ok (content d)) :
    ∃ k, download_binance_data "klines" (some iv) [] remote s e =
      .ok ((dateRange s e).map (fun d => (d, Content.table (content d))),
        k) := by
  have hne : missing_dates (([] : Dir).map Prod.fst) s e ≠ [] := by
    simp only [List.map_nil, missing_dates_nil_existing]
    exact dateRange_ne_nil hse
  have htf :
      (missing_dates (([] : Dir).map Prod.fst) s e).filter
        (fun d => fileAt ([] : Dir) d = none) = dateRange s e := by
    simp only [List.map_nil, missing_dates_nil_existing]
    apply List.filter_eq_self.mpr
    intro a _
    simp [fileAt]
  have hwr : ∀ r ∈ run_downloads remote (dateRange s e),
      r.2.written = some ((fun d => Content.table (content d)) r.1) := by
    intro r hr
    obtain ⟨d, _, rfl⟩ := List.mem_map.mp hr
    rw [download_first_ok (remote d) (content d) 3 (by omega) (hremote d 1)]
  have happ := apply_outcomes_written (fun d => Content.table (content d))
    (run_downloads remote (dateRange s e)) hwr []
  have hmap : (run_downloads remote (dateRange s e)).map
      (fun r => (r.1, Content.table (content r.1))) =
      (dateRange s e).map (fun d => (d, Content.table (content d))) := by
    rw [run_downloads, List.map_map]
    rfl
  refine ⟨total_requests (run_downloads remote (dateRange s e)), ?_⟩
  simp only [download_binance_data, get_existing_dates]
  rw [if_neg (by simp), if_neg (by simp), if_neg (by simp)]
  simp only [if_neg hne, htf, happ, hmap]
  rfl

theorem download_all_corrupt (iv : String) (dir : Dir)
    (remote : Nat → Nat → RemoteResult) (s e : Nat)
    (hc : ∀ d n, remote d n = RemoteResult.corruptMember) :
    ∃ k, download_binance_data "klines" (some iv) dir remote s e =
      .ok (dir ++ (missing_dates (dir.map Prod.fst) s e).map
            (fun d => (d, Content.malformed)), k) := by
  by_cases hm : missing_dates (dir.map Prod.fst) s e = []
  · refine ⟨0, ?_⟩
    rw [hm]
    simp [download_binance_data, get_existing_dates, hm]
  · have htf : (missing_dates (dir.map Prod.fst) s e).filter
        (fun d => fileAt dir d = none) =
        missing_dates (dir.map Prod.fst) s e := by
      apply List.filter_eq_self.mpr
      intro d hd
      rw [mem_missing_dates] at hd
      simp [fileAt_eq_none_iff.mpr hd.2.2]
    have hwr : ∀ r ∈ run_downloads remote
        (missing_dates (dir.map Prod.fst) s e),
        r.2.written = some ((fun _ => Content.malformed) r.1) := by
      intro r hr
      obtain ⟨d, _, rfl⟩ := List.mem_map.mp hr
      rw [download_exhausts_of_transient (remote d) 3
        (fun n => by rw [hc d n]; rfl)]
      have h13 : (List.range' 1 3).any
          (fun n => remote d n == RemoteResult.corruptMember) = true := by
        rw [show List.range' 1 3 = [1, 2, 3] from rfl]
        simp [hc d]
      simp [h13]
    have happ := apply_outcomes_written (fun _ => Content.malformed)
      (run_downloads remote (missing_dates (dir.map Prod.fst) s e)) hwr dir
    have hmap : (run_downloads remote
        (missing_dates (dir.map Prod.fst) s e)).map
        (fun r => (r.1, Content.malformed)) =
        (missing_dates (dir.map Prod.fst) s e).map
          (fun d => (d, Content.malformed)) := by
      rw [run_downloads, List.map_map]
      rfl
    refine ⟨total_requests (run_downloads remote
      (missing_dates (dir.map Prod.fst) s e)), ?_⟩
    simp only [download_binance_data, get_existing_dates]
    rw [if_neg (by simp), if_neg (by simp), if_neg (by simp)]
    simp only [if_neg hm, htf, happ, hmap]

theorem combined_of_present (iv : String) (dir : Dir)
    (remote : Nat → Nat → RemoteResult) (s e : Nat) (rows : Nat → List Row)
    (hall : ∀ d ∈ dateRange s e, fileAt dir d = some (Content.table (rows d))) :
    get_combined_dataframe dir remote s e "klines" iv =
      ((if (dateRange s e).map rows = [] then .error "No data found, exiting."
        else .ok ((dateRange s e).map rows).flatten), 0) := by
  have hdl := download_noop_of_present iv dir remote s e
    (fun d h1 h2 => by rw [hall d (mem_dateRange.mpr ⟨h1, h2⟩)]; rfl)
  have hc := collect_dfs_all_present dir rows (dateRange s e) hall
  simp only [get_combined_dataframe, hdl, hc]
  split <;> rfl

theorem combined_fresh (iv : String) (content : Nat → List Row)
    (remote : Nat → Nat → RemoteResult) (s e : Nat) (hse : s ≤ e)
    (hremote : ∀ d n, remote d n = .ok (content d)) :
    (get_combined_dataframe [] remote s e "klines" iv).1 =
      .ok (((dateRange s e).map content).flatten) := by
  obtain ⟨k, hdl⟩ := download_fresh_all_ok iv content remote s e hse hremote
  have hc := collect_dfs_all_present
    ((dateRange s e).map (fun d => (d, Content.table (content d))))
    content (dateRange s e)
    (fun d hd => fileAt_map_of_mem (fun x => Content.table (content x))
      (dateRange s e) d hd)
  have hne : (dateRange s e).map content ≠ [] := by
    intro h0
    exact dateRange_ne_nil hse (List.map_eq_nil_iff.mp h0)
  simp only [get_combined_dataframe, hdl, hc, if_neg hne]

/-! ## Claim theorems -/

/-- C2 counterexample: during a fetch of payload `[1, 2]`, the destination
path holds the strict prefix `[1]` (and the empty file `[]`), so it is false
that the destination always shows either no file or the complete artifact.
The source writes with `open(out_path, "wb")` directly at the destination —
there is no temporary path and no rename. -/
theorem write_atomicity_cex :
    ¬ ∀ st ∈ destStatesDuringWrite [1, 2], st = none ∨ st = some [1, 2] := by
  decide

/-- C2 as amended: the decompressed payload is written directly to the
destination path (no temporary file, no atomic rename); during the write the
destination passes through every prefix of the payload — in particular, for a
nonempty payload some observable destination state is a file that is neither
absent nor the complete artifact, so an aborted fetch can leave a truncated
file at the destination. -/
theorem write_direct_prefix_states (payload : List Nat) (hne : payload ≠ []) :
    some payload ∈ destStatesDuringWrite payload
    ∧ (∀ st ∈ destStatesDuringWrite payload,
        ∃ k, k ≤ payload.length ∧ st = some (payload.take k))
    ∧ ∃ st ∈ destStatesDuringWrite payload, st ≠ none ∧ st ≠ some payload := by
  refine ⟨?_, ?_, ?_⟩
  · rw [destStatesDuringWrite]
    exact List.mem_map.mpr
      ⟨payload.length, List.mem_range.mpr (by omega), by rw [List.take_length]⟩
  · intro st hst
    obtain ⟨k, hk, rfl⟩ := List.mem_map.mp hst
    exact ⟨k, by have := List.mem_range.mp hk; omega, rfl⟩
  · refine ⟨some [], ?_, by simp, ?_⟩
    · rw [destStatesDuringWrite]
      exact List.mem_map.mpr ⟨0, List.mem_range.mpr (by omega), by simp⟩
    · intro hcontra
      rw [Option.some.injEq] at hcontra
      exact hne hcontra.symm

/-- C2 witness: the amended statement at payload `[1, 2]`. -/
theorem write_direct_prefix_states_witness :
    some [1, 2] ∈ destStatesDuringWrite [1, 2]
    ∧ (∀ st ∈ destStatesDuringWrite [1, 2],
        ∃ k, k ≤ ([1, 2] : List Nat).length ∧ st = some (([1, 2] : List Nat).take k))
    ∧ ∃ st ∈ destStatesDuringWrite [1, 2], st ≠ none ∧ st ≠ some [1, 2] :=
  write_direct_prefix_states [1, 2] (by decide)

/-- C3 counterexample: with `start_date = 5 > 3 = end_date` the acquisition
run does not fail with an InvalidRange error — it returns successfully (with
the directory untouched and zero requests). -/
theorem inverted_range_no_error_cex :
    download_binance_data "klines" (some "1h") []
      (fun _ _ => RemoteResult.httpError 404) 5 3 = .ok ([], 0)
    ∧ ∀ m, download_binance_data "klines" (some "1h") []
        (fun _ _ => RemoteResult.httpError 404) 5 3 ≠ .error m := by
  refine ⟨rfl, fun m h => ?_⟩
  have h2 : Except.ok (([] : Dir), (0 : Nat)) = Except.error m := h
  exact Except.noConfusion h2

/-- C3 as amended: when `start_date > end_date` the missing-days computation
treats the range as empty, so the acquisition run raises no error at all: it
returns successfully, leaves the cache directory unchanged, and issues zero
network requests. -/
theorem inverted_range_noop (iv : String) (dir : Dir)
    (remote : Nat → Nat → RemoteResult) (s e : Nat) (h : e < s) :
    download_binance_data "klines" (some iv) dir remote s e = .ok (dir, 0) := by
  have hm : missing_dates (dir.map Prod.fst) s e = [] := by
    rw [missing_dates, dateRange_eq_nil h, List.filter_nil]
  simp [download_binance_data, get_existing_dates, hm]

/-- C3 witness: the amended statement at `start_date = 5`, `end_date = 3`. -/
theorem inverted_range_noop_witness :
    (3 : Nat) < 5
    ∧ download_binance_data "klines" (some "1h") [(9, Content.table [])]
        (fun _ _ => RemoteResult.netError) 5 3 =
      .ok ([(9, Content.table [])], 0) :=
  ⟨by decide, inverted_range_noop "1h" [(9, Content.table [])]
    (fun _ _ => RemoteResult.netError) 5 3 (by decide)⟩

/-- C4 counterexample: a malformed (e.g. zero-byte) file at the
deterministic path of date 7 makes `get_existing_dates` report date 7 as present, and
date 7 is consequently NOT returned among the missing days — contradicting
the claim that a zero-byte or truncated file is never marked present. -/
theorem zero_byte_marked_present_cex :
    get_existing_dates "klines" (some "1h") [(7, Content.malformed)] = .ok [7]
    ∧ Content.wellFormed Content.malformed = false
    ∧ missing_dates [7] 7 7 = [] :=
  ⟨rfl, rfl, rfl⟩

/-- C4 as amended: the cache index counts a date as present iff SOME file
exists at the deterministic path of the date, regardless of its size or
well-formedness — presence is a pure existence check that never inspects
content. -/
theorem presence_is_existence (data_type : String) (interval : Option String)
    (dir : Dir) (hv : ¬(data_type = "klines" ∧ interval = none)) :
    ∃ l, get_existing_dates data_type interval dir = .ok l
      ∧ ∀ d, d ∈ l ↔ (fileAt dir d).isSome := by
  refine ⟨dir.map Prod.fst, ?_, fun d => fileAt_isSome_iff.symm⟩
  rw [get_existing_dates, if_neg hv]

/-- C4 witness: the amended statement on a directory holding one malformed
file. -/
theorem presence_is_existence_witness :
    ¬(("klines" : String) = "klines" ∧ (some "1h" : Option String) = none)
    ∧ ∃ l, get_existing_dates "klines" (some "1h") [(7, Content.malformed)] =
        .ok l
      ∧ ∀ d, d ∈ l ↔ (fileAt [(7, Content.malformed)] d).isSome :=
  ⟨by simp, presence_is_existence "klines" (some "1h") [(7, Content.malformed)]
    (by simp)⟩

/-- C5: when every attempt for date `d0` yields a transient failure, the
fetcher makes exactly `retries` attempts (one 1-second sleep after each
failed attempt, hence a fixed 1-second delay between consecutive attempts),
then returns a terminal failure value — `success := false`, with the
destination holding a zero-byte leftover exactly when some attempt died
during member extraction and holding nothing otherwise — rather than
raising; in general no call makes more than `retries` attempts, and the
scheduled batch still yields exactly one outcome per requested date, so
sibling fetches are unaffected. -/
theorem retry_bound_terminal_failure (remote : Nat → Nat → RemoteResult)
    (retries : Nat) (dates : List Nat) (d0 : Nat)
    (h : ∀ n, isTransient (remote d0 n) = true) :
    download_and_save_csv (remote d0) retries =
      { success := false,
        written :=
          if (List.range' 1 retries).any
              (fun n => remote d0 n == RemoteResult.corruptMember)
          then some Content.malformed else none,
        attempts := retries, sleeps := retries }
    ∧ (∀ resp : Nat → RemoteResult,
        (download_and_save_csv resp retries).attempts ≤ retries)
    ∧ (run_downloads remote dates retries).map Prod.fst = dates := by
  refine ⟨download_exhausts_of_transient (remote d0) retries h, ?_, ?_⟩
  · intro resp
    have hle := attempt_loop_attempts_le resp retries 0 false
    simpa [download_and_save_csv] using hle
  · rw [run_downloads, List.map_map]
    exact List.map_id dates

/-- C5 witness: a remote that always times out for date 10, scheduled
together with date 11, with the default 3 retries. -/
theorem retry_bound_terminal_failure_witness :
    download_and_save_csv (fun _ => RemoteResult.netError) 3 =
      { success := false, written := none, attempts := 3, sleeps := 3 }
    ∧ (∀ resp : Nat → RemoteResult,
        (download_and_save_csv resp 3).attempts ≤ 3)
    ∧ (run_downloads (fun _ _ => RemoteResult.netError) [10, 11] 3).map
        Prod.fst = [10, 11] :=
  retry_bound_terminal_failure (fun _ _ => RemoteResult.netError) 3 [10, 11] 10
    (fun _ => rfl)

/-- C8 counterexample: the artifact of date 3 is a malformed file, hence not a
well-formed artifact, yet the missing-days computation does not return
date 3: the acquisition run for the range [3, 3] immediately returns with
zero requests (the missing set was empty). -/
theorem missing_days_ignore_content_cex :
    missing_dates [3] 3 3 = []
    ∧ fileAt [(3, Content.malformed)] 3 = some Content.malformed
    ∧ Content.wellFormed Content.malformed = false
    ∧ download_binance_data "klines" (some "1m") [(3, Content.malformed)]
        (fun _ _ => RemoteResult.netError) 3 3 =
      .ok ([(3, Content.malformed)], 0) :=
  ⟨rfl, rfl, rfl, rfl⟩

/-- C8 as amended: for a valid klines key, the missing-days computation
returns exactly the calendar dates of the inclusive range at whose
deterministic path NO file exists at all (content is never inspected), in
strictly ascending order — hence with no duplicates. -/
theorem missing_days_existence_sorted (iv : String) (dir : Dir)
    (s e : Nat) (ex : List Nat)
    (hex : get_existing_dates "klines" (some iv) dir = .ok ex) :
    (∀ d, d ∈ missing_dates ex s e ↔ s ≤ d ∧ d ≤ e ∧ fileAt dir d = none)
    ∧ (missing_dates ex s e).Pairwise (· < ·) := by
  rw [get_existing_dates, if_neg (by simp)] at hex
  injection hex with hx
  subst hx
  constructor
  · intro d
    rw [mem_missing_dates, fileAt_eq_none_iff]
  · exact (dateRange_pairwise s e).filter _

/-- C8 witness: the amended statement on a cache holding only date 2, over
the range [1, 3]. -/
theorem missing_days_existence_sorted_witness :
    get_existing_dates "klines" (some "1h") [(2, Content.table [])] = .ok [2]
    ∧ (∀ d, d ∈ missing_dates [2] 1 3 ↔
        1 ≤ d ∧ d ≤ 3 ∧ fileAt [(2, Content.table [])] d = none)
    ∧ (missing_dates [2] 1 3).Pairwise (· < ·) :=
  ⟨rfl, missing_days_existence_sorted "1h" [(2, Content.table [])] 1 3 [2] rfl⟩

/-- C9: in the interleaving semantics of the semaphore-bounded scheduler,
every state reachable by a run of `n` fetch tasks under concurrency limit
`N` has at most `N` tasks simultaneously in flight (inside the
`async with semaphore` block, i.e. downloading or writing). -/
theorem concurrency_bound_invariant (N n : Nat) (s : SchedState)
    (h : SchedReachable N n s) : inFlightCount s ≤ N := by
  induction h with
  | refl =>
    have h0 : inFlightCount (List.replicate n TaskPhase.waiting) = 0 := by
      induction n with
      | zero => rfl
      | succ k ih =>
        rw [List.replicate_succ]
        simp only [inFlightCount, List.countP_cons] at ih ⊢
        simp [ih]
    omega
  | tail _ hstep ih =>
    cases hstep with
    | acquire pre post hlt =>
      simp [inFlightCount, List.countP_append, List.countP_cons] at hlt ih ⊢
      omega
    | release pre post =>
      simp [inFlightCount, List.countP_append, List.countP_cons] at ih ⊢
      omega

/-- C9 witness: with limit 2 and three tasks, the state after one acquire is
reachable and has at most 2 tasks in flight. -/
theorem concurrency_bound_invariant_witness :
    inFlightCount [TaskPhase.inFlight, TaskPhase.waiting, TaskPhase.waiting]
      ≤ 2 :=
  concurrency_bound_invariant 2 3 _
    (Relation.ReflTransGen.single
      (SchedStep.acquire [] [TaskPhase.waiting, TaskPhase.waiting]
        (by decide)))

/-- C10: a `data_type` other than klines or bookTicker makes the acquisition
entry point fail with a `ValueError` before touching the cache directory or
the network (the returned state carries no directory change and no
requests); klines without an interval likewise fails, and the cache scan
itself (`get_existing_dates`) raises the same `ValueError` for klines
without an interval. -/
theorem data_type_validation (data_type : String) (interval : Option String)
    (dir : Dir) (remote : Nat → Nat → RemoteResult) (s e : Nat)
    (h1 : data_type ≠ "klines") (h2 : data_type ≠ "bookTicker") :
    download_binance_data data_type interval dir remote s e =
      .error "data_type must be klines or bookTicker"
    ∧ download_binance_data "klines" none dir remote s e =
      .error "interval is required for klines data_type"
    ∧ get_existing_dates "klines" none dir =
      .error "interval is required for klines data_type" := by
  refine ⟨?_, ?_, ?_⟩
  · rw [download_binance_data, if_pos ⟨h1, h2⟩]
  · rw [download_binance_data, if_neg (by simp), if_pos ⟨rfl, rfl⟩]
  · rw [get_existing_dates, if_pos ⟨rfl, rfl⟩]

/-- C10 witness: the validation at `data_type = "trades"`. -/
theorem data_type_validation_witness :
    download_binance_data "trades" (some "1h") []
      (fun _ _ => RemoteResult.netError) 0 1 =
      .error "data_type must be klines or bookTicker"
    ∧ download_binance_data "klines" none []
      (fun _ _ => RemoteResult.netError) 0 1 =
      .error "interval is required for klines data_type"
    ∧ get_existing_dates "klines" none [] =
      .error "interval is required for klines data_type" :=
  data_type_validation "trades" (some "1h") []
    (fun _ _ => RemoteResult.netError) 0 1 (by decide) (by decide)

/-- C1 counterexample: with date 0 cached and date 1 unobtainable (remote
always returns 404), assembling the range [0, 1] does NOT fail with a
MissingData error — it returns the rows of date 0 alone, i.e. a dataset with a
gap at date 1. -/
theorem assembly_gapped_cex :
    (get_combined_dataframe
        [(0, Content.table [{ open_time := 5, payload := 0 }])]
        (fun _ _ => RemoteResult.httpError 404) 0 1).1 =
      .ok [{ open_time := 5, payload := 0 }]
    ∧ fileAt [(0, Content.table [{ open_time := 5, payload := 0 }])] 1 =
        none :=
  ⟨rfl, rfl⟩

/-- C1 as amended: two regimes replace the claimed MissingData failure.
First, when the fetches of the still-missing days fail only in ways that
never reach `open(out_path, "wb")` (non-200 status, network error, archive
rejected on open) and no cached artifact in the range is malformed,
assembly silently SKIPS every missing date and returns the concatenation of
the rows of the present dates — a partial result whenever at least one (but
not every) date is present; it fails (`ValueError`, "No data found") only
when no date in the range contributes any frame.  Second, when the fetches
instead fail persistently during member extraction (HTTP 200, corrupt
payload), each failed attempt truncates the destination, the exhausted
fetch leaves a zero-byte artifact behind, and assembly then aborts with the
pandas parse error — in neither regime is a MissingData error naming the
offending dates produced. -/
theorem assembly_skips_missing_days (iv : String) (dir : Dir)
    (remote : Nat → Nat → RemoteResult) (s e : Nat)
    (hfail : ∀ d n, failsBeforeWrite (remote d n) = true)
    (hwf : ∀ d ∈ dateRange s e, fileAt dir d ≠ some Content.malformed)
    (hsome : ∃ d ∈ dateRange s e, (presentRows dir d).isSome) :
    (get_combined_dataframe dir remote s e "klines" iv).1 =
      .ok (((dateRange s e).filterMap (presentRows dir)).flatten)
    ∧ ∀ remote2 : Nat → Nat → RemoteResult,
        (∀ d n, remote2 d n = RemoteResult.corruptMember) →
        (∃ d ∈ dateRange s e, fileAt dir d = none) →
        (get_combined_dataframe dir remote2 s e "klines" iv).1 =
          .error "No columns to parse from file" := by
  constructor
  · obtain ⟨k, hdl⟩ := download_transient_keeps_dir iv dir remote s e hfail
    have hc := collect_dfs_no_malformed dir (dateRange s e) hwf
    have hne : (dateRange s e).filterMap (presentRows dir) ≠ [] := by
      obtain ⟨d, hd, hs⟩ := hsome
      intro h0
      rw [List.filterMap_eq_nil_iff] at h0
      rw [h0 d hd] at hs
      simp at hs
    simp only [get_combined_dataframe, hdl, hc, if_neg hne]
  · intro remote2 hcm hex
    obtain ⟨d0, hd0, hd0none⟩ := hex
    obtain ⟨k, hdl⟩ := download_all_corrupt iv dir remote2 s e hcm
    have hd0m : d0 ∈ missing_dates (dir.map Prod.fst) s e := by
      rw [mem_missing_dates]
      have hb := mem_dateRange.mp hd0
      exact ⟨hb.1, hb.2, fileAt_eq_none_iff.mp hd0none⟩
    have hmal : fileAt (dir ++ (missing_dates (dir.map Prod.fst) s e).map
        (fun d => (d, Content.malformed))) d0 = some Content.malformed := by
      rw [fileAt_append, hd0none]
      exact fileAt_map_of_mem (fun _ => Content.malformed) _ d0 hd0m
    have hc := collect_dfs_error_of_malformed
      (dir ++ (missing_dates (dir.map Prod.fst) s e).map
        (fun d => (d, Content.malformed)))
      (dateRange s e) ⟨d0, hd0, hmal⟩
    simp only [get_combined_dataframe, hdl, hc]

/-- C1 witness: the amended statement at the inputs of the counterexample
(date 0 cached, date 1 missing, range [0, 1], a remote that always fails
with a 404). -/
theorem assembly_skips_missing_days_witness :
    ((get_combined_dataframe
        [(0, Content.table [{ open_time := 5, payload := 0 }])]
        (fun _ _ => RemoteResult.httpError 404) 0 1 "klines" "1h").1 =
      .ok (((dateRange 0 1).filterMap
          (presentRows
            [(0, Content.table [{ open_time := 5, payload := 0 }])])).flatten))
    ∧ ∀ remote2 : Nat → Nat → RemoteResult,
        (∀ d n, remote2 d n = RemoteResult.corruptMember) →
        (∃ d ∈ dateRange 0 1,
          fileAt [(0, Content.table [{ open_time := 5, payload := 0 }])] d =
            none) →
        (get_combined_dataframe
            [(0, Content.table [{ open_time := 5, payload := 0 }])]
            remote2 0 1 "klines" "1h").1 =
          .error "No columns to parse from file" :=
  assembly_skips_missing_days "1h"
    [(0, Content.table [{ open_time := 5, payload := 0 }])]
    (fun _ _ => RemoteResult.httpError 404) 0 1
    (fun _ _ => rfl) (by decide) (by decide)

/-- C6: when every date of the range already has its artifact cached (with
the same per-day content the remote would serve), re-running the combined
acquisition issues zero HTTP requests, and the assembled dataset equals the
one a fresh run from an empty cache would produce. -/
theorem idempotent_rerun_zero_requests (iv : String) (dir : Dir)
    (content : Nat → List Row) (remote : Nat → Nat → RemoteResult) (s e : Nat)
    (hall : ∀ d ∈ dateRange s e,
      fileAt dir d = some (Content.table (content d)))
    (hremote : ∀ d n, remote d n = .ok (content d)) :
    (get_combined_dataframe dir remote s e "klines" iv).2 = 0
    ∧ (get_combined_dataframe dir remote s e "klines" iv).1 =
        (get_combined_dataframe [] remote s e "klines" iv).1 := by
  have h1 := combined_of_present iv dir remote s e content hall
  refine ⟨by rw [h1], ?_⟩
  rcases Nat.lt_or_ge e s with hlt | hge
  · have hr : dateRange s e = [] := dateRange_eq_nil hlt
    have h2 := combined_of_present iv [] remote s e content
      (by rw [hr]; intro d hd; cases hd)
    rw [h1, h2]
  · have h2 := combined_fresh iv content remote s e hge hremote
    have hne : (dateRange s e).map content ≠ [] := by
      intro h0
      exact dateRange_ne_nil hge (List.map_eq_nil_iff.mp h0)
    rw [h1, h2, if_neg hne]

/-- C6 witness: a two-day range fully cached, against a remote serving the
same content. -/
theorem idempotent_rerun_zero_requests_witness :
    (get_combined_dataframe
        [(0, Content.table [{ open_time := 0, payload := 0 }]),
         (1, Content.table [{ open_time := 1, payload := 0 }])]
        (fun d _ => RemoteResult.ok [{ open_time := d, payload := 0 }])
        0 1 "klines" "1h").2 = 0
    ∧ (get_combined_dataframe
        [(0, Content.table [{ open_time := 0, payload := 0 }]),
         (1, Content.table [{ open_time := 1, payload := 0 }])]
        (fun d _ => RemoteResult.ok [{ open_time := d, payload := 0 }])
        0 1 "klines" "1h").1 =
      (get_combined_dataframe []
        (fun d _ => RemoteResult.ok [{ open_time := d, payload := 0 }])
        0 1 "klines" "1h").1 :=
  idempotent_rerun_zero_requests "1h"
    [(0, Content.table [{ open_time := 0, payload := 0 }]),
     (1, Content.table [{ open_time := 1, payload := 0 }])]
    (fun d => [{ open_time := d, payload := 0 }])
    (fun d _ => RemoteResult.ok [{ open_time := d, payload := 0 }])
    0 1 (by decide) (fun _ _ => rfl)

/-- C7: when every artifact of the nonempty range is present and
parseable and the rows of each day carry timestamps inside that day,
assembly succeeds with exactly the concatenation of the per-day row lists in
ascending date order (rows kept in source order); the output length is the
sum of the per-day row counts, and timestamps never decrease from the rows
of one day to the rows of the next. -/
theorem assembly_concat_ordered (iv : String) (dir : Dir)
    (remote : Nat → Nat → RemoteResult) (s e : Nat) (rows : Nat → List Row)
    (hse : s ≤ e)
    (hall : ∀ d ∈ dateRange s e, fileAt dir d = some (Content.table (rows d)))
    (hts : ∀ d ∈ dateRange s e, ∀ r ∈ rows d, inDay d r) :
    ∃ out, (get_combined_dataframe dir remote s e "klines" iv).1 = .ok out
      ∧ out = ((dateRange s e).map rows).flatten
      ∧ out.length = ((dateRange s e).map (fun d => (rows d).length)).sum
      ∧ ∀ (i : Nat) (hi : i + 1 < (dateRange s e).length) (a b : Row),
          a ∈ rows ((dateRange s e).get ⟨i, by omega⟩) →
          b ∈ rows ((dateRange s e).get ⟨i + 1, hi⟩) →
          a.open_time ≤ b.open_time := by
  have h1 := combined_of_present iv dir remote s e rows hall
  have hne : (dateRange s e).map rows ≠ [] := by
    intro h0
    exact dateRange_ne_nil hse (List.map_eq_nil_iff.mp h0)
  refine ⟨((dateRange s e).map rows).flatten, ?_, rfl, ?_, ?_⟩
  · rw [h1, if_neg hne]
  · rw [List.length_flatten, List.map_map]
    rfl
  · intro i hi a b ha hb
    have hlen := length_dateRange s e
    rw [dateRange_get s e i (by omega)] at ha
    rw [dateRange_get s e (i + 1) hi] at hb
    have hi' : i + 1 < e + 1 - s := by omega
    have hmem1 : s + i ∈ dateRange s e := mem_dateRange.mpr ⟨by omega, by omega⟩
    have hmem2 : s + (i + 1) ∈ dateRange s e :=
      mem_dateRange.mpr ⟨by omega, by omega⟩
    have hda := hts (s + i) hmem1 a ha
    have hdb := hts (s + (i + 1)) hmem2 b hb
    exact Nat.le_trans (Nat.le_of_lt hda.2) hdb.1

/-- C7 witness: two cached days whose single rows sit at the first
millisecond of each day. -/
theorem assembly_concat_ordered_witness :
    ∃ out, (get_combined_dataframe
        [(0, Content.table [{ open_time := 0, payload := 0 }]),
         (1, Content.table [{ open_time := 86400000, payload := 0 }])]
        (fun _ _ => RemoteResult.netError) 0 1 "klines" "1h").1 = .ok out
      ∧ out = ((dateRange 0 1).map
          (fun d => [{ open_time := d * 86400000, payload := 0 }])).flatten
      ∧ out.length = ((dateRange 0 1).map
          (fun d =>
            ([{ open_time := d * 86400000, payload := 0 }] : List Row).length)).sum
      ∧ ∀ (i : Nat) (hi : i + 1 < (dateRange 0 1).length) (a b : Row),
          a ∈ (fun d => [{ open_time := d * 86400000, payload := 0 }])
              ((dateRange 0 1).get ⟨i, by omega⟩) →
          b ∈ (fun d => [{ open_time := d * 86400000, payload := 0 }])
              ((dateRange 0 1).get ⟨i + 1, hi⟩) →
          a.open_time ≤ b.open_time :=
  assembly_concat_ordered "1h"
    [(0, Content.table [{ open_time := 0, payload := 0 }]),
     (1, Content.table [{ open_time := 86400000, payload := 0 }])]
    (fun _ _ => RemoteResult.netError) 0 1
    (fun d => [{ open_time := d * 86400000, payload := 0 }])
    (by decide) (by decide) (by decide)
